import Mathlib

/-!
Verification of the event/metric definition pipeline of PerfSpect's
`cmd/metrics` package (`metrics-server.go`): the x86 and ARM event catalog
loaders, the collectability filter, the name abbreviator, the uncore group
expander and the conditional metric-formula transformer.

The Go code is shallowly embedded: strings are Lean `String`s manipulated
through their `List Char` data (the catalog files are ASCII), file/JSON IO is
abstracted to the values the stdlib calls return, the package-global
`flagScope` is threaded as an explicit `Scope` parameter, and Go's named
return values, early returns and runtime panics are made explicit
(`Except`, an explicit `panicked` constructor).
-/

/-- Collection scope (`flagScope`: `scopeSystem`, `scopeProcess`, `scopeCgroup`). -/
inductive Scope where
  | system
  | process
  | cgroup
deriving DecidableEq

/-- `strings.Split(s, sep)` for a one-character separator: never returns `[]`. -/
def goSplitChar (sep : Char) : List Char → List (List Char)
  | [] => [[]]
  | c :: rest =>
    let r := goSplitChar sep rest
    if c = sep then [] :: r
    else
      match r with
      | f :: t => (c :: f) :: t
      | [] => [[c]]

/-- Substring search on character data (Go `strings.Contains`'s semantics:
the empty pattern is contained in every string). -/
def containsSubList (sub : List Char) : List Char → Bool
  | [] => sub.isPrefixOf []
  | c :: t => if sub.isPrefixOf (c :: t) then true else containsSubList sub t

/-- `strings.Contains(s, sub)`. -/
def containsSub (s sub : String) : Bool :=
  containsSubList sub.data s.data

/-- `strings.HasPrefix(s, pre)`. -/
def goHasPrefix (s pre : String) : Bool :=
  pre.data.isPrefixOf s.data

/-- `strings.HasSuffix(s, suf)`. -/
def goHasSuffix (s suf : String) : Bool :=
  suf.data.isSuffixOf s.data

/-- The white-space characters `unicode.IsSpace` recognises in ASCII input. -/
def isGoSpace (c : Char) : Bool :=
  c = ' ' || c = '\t' || c = '\n' || c = '\x0b' || c = '\x0c' || c = '\r'

/-- `strings.TrimSpace` on ASCII input. -/
def goTrim (s : List Char) : List Char :=
  ((s.dropWhile isGoSpace).reverse.dropWhile isGoSpace).reverse

/-- `strings.Replace(s, old, new, -1)` on the character data: scan left to
right, replacing non-overlapping occurrences of `old`.  On a match the
matched characters are consumed: the first is consumed by the step itself and
the `skip` counter consumes the remaining `old.length - 1` before the scan
resumes. -/
def goReplaceAux (old new : List Char) : Nat → List Char → List Char
  | _, [] => []
  | 0, c :: cs =>
    if old ≠ [] ∧ old.isPrefixOf (c :: cs) then
      new ++ goReplaceAux old new (old.length - 1) cs
    else
      c :: goReplaceAux old new 0 cs
  | skip + 1, _c :: cs => goReplaceAux old new skip cs

/-- `strings.Replace(s, old, new, -1)`. -/
def goReplace (s old new : String) : String :=
  ⟨goReplaceAux old.data new.data 0 s.data⟩

/-- The ASCII digit character `'0' + m` for a digit value `m < 10`. -/
def digitChar : Nat → Char
  | 0 => '0' | 1 => '1' | 2 => '2' | 3 => '3' | 4 => '4'
  | 5 => '5' | 6 => '6' | 7 => '7' | 8 => '8' | _ => '9'

/-- `fmt.Sprintf("%d", n)` for a non-negative value: decimal digits, emitted
least-significant first onto `acc`.  The fuel only bounds the recursion; it
never runs out when `n ≤ fuel`. -/
def natDecimalAux : Nat → Nat → List Char → List Char
  | 0, n, acc => digitChar (n % 10) :: acc
  | fuel + 1, n, acc =>
    if n < 10 then digitChar (n % 10) :: acc
    else natDecimalAux fuel (n / 10) (digitChar (n % 10) :: acc)

/-- Decimal rendering of a device id, as `fmt.Sprintf` produces it. -/
def natDecimal (n : Nat) : String :=
  ⟨natDecimalAux n n []⟩

/-- `EventDefinition` (`metrics-server.go`): one perf event. -/
structure EventDefinition where
  Raw : String
  Name : String
  Device : String
  Description : String
deriving DecidableEq

/-- `GroupDefinition`: a group of perf events. -/
abbrev GroupDefinition := List EventDefinition

/-- The fields of `Metadata` the pipeline reads. `UncoreDeviceIDs` is the Go
map `map[string][]int` as an association list (the code only looks keys up and
tests key membership, so the map's random iteration order is irrelevant);
device ids are the non-negative instance numbers read from sysfs. -/
structure Metadata where
  Architecture : String
  Vendor : String
  Microarchitecture : String
  PerfSupportedEvents : String
  UncoreDeviceIDs : List (String × List Nat)
  SupportsFixedTMA : Bool
  SupportsPEBS : Bool
  SupportsOCR : Bool
  SupportsUncore : Bool
  SupportsRefCycles : Bool

/-- Key membership in the `UncoreDeviceIDs` map. -/
def uncoreDeviceExists (md : Metadata) (device : String) : Bool :=
  md.UncoreDeviceIDs.any (fun kv => kv.1 = device)

/-- Map lookup `metadata.UncoreDeviceIDs[device]` (zero value `[]` when absent). -/
def uncoreDeviceIds (md : Metadata) (device : String) : List Nat :=
  match md.UncoreDeviceIDs.find? (fun kv => kv.1 = device) with
  | some kv => kv.2
  | none => []

/-- Outcome of `parseEventDefinition`: Go returns `(EventDefinition, error)`
but can also panic on a slice out of range. -/
inductive ParseOutcome where
  | ok (e : EventDefinition)
  | formatError (line : String)
  | panicked
deriving DecidableEq

/-- `parseEventDefinition` (`metrics-server.go`): parse one data line.
`nameField[:5]` panics when the last field is shorter than 5 characters and
`nameField[6 : len(nameField)-2]` panics when it is shorter than 8. -/
def parseEventDefinition (line : String) : ParseOutcome :=
  let fields := goSplitChar ',' line.data
  if fields.length = 1 then
    .ok { Raw := line, Name := ⟨fields.headD []⟩, Device := "", Description := "" }
  else
    let nameField := fields.getLastD []
    if nameField.length < 5 then .panicked
    else if ¬ (nameField.take 5 = "name=".data) then .formatError line
    else if nameField.length < 8 then .panicked
    else
      .ok { Raw := line
            Name := ⟨(nameField.drop 6).take (nameField.length - 2 - 6)⟩
            Device := ⟨(goSplitChar '/' (fields.headD [])).headD []⟩
            Description := "" }

/-- The abbreviation table of `abbreviateEventName`, in source order. -/
def abbreviations : List (String × String) :=
  [("UNC_CHA_TOR_INSERTS", "UNCCTI"),
   ("UNC_CHA_TOR_OCCUPANCY", "UNCCTO"),
   ("UNC_CHA_CLOCKTICKS", "UNCCCT"),
   ("UNC_M_CAS_COUNT_SCH", "UNCMCC"),
   ("IA_MISS_DRD_REMOTE", "IMDR"),
   ("IA_MISS_DRD_LOCAL", "IMDL"),
   ("IA_MISS_LLCPREFDATA", "IMLP"),
   ("IA_MISS_LLCPREFRFO", "IMLR"),
   ("IA_MISS_DRD_PREF_LOCAL", "IMDPL"),
   ("IA_MISS_DRD_PREF_REMOTE", "IMDRP"),
   ("IA_MISS_CRD_PREF", "IMCP"),
   ("IA_MISS_RFO_PREF", "IMRP"),
   ("IA_MISS_RFO", "IMRF"),
   ("IA_MISS_CRD", "IMC"),
   ("IA_MISS_DRD", "IMD"),
   ("IO_PCIRDCUR", "IPCI"),
   ("IO_ITOMCACHENEAR", "IITN"),
   ("IO_ITOM", "IITO"),
   ("IMD_OPT", "IMDO")]

/-- `abbreviateEventName`: apply each table replacement in order. -/
def abbreviateEventName (event : String) : String :=
  abbreviations.foldl (fun e ab => goReplace e ab.1 ab.2) event

/-- `isCollectableEvent`: can the event be collected on the platform?  The
package-global `flagScope` is the explicit `scope` argument. -/
def isCollectableEvent (scope : Scope) (event : EventDefinition) (md : Metadata) : Bool :=
  -- fixed-counter TMA
  if ¬ md.SupportsFixedTMA ∧
      (event.Name = "TOPDOWN.SLOTS" ∨ goHasPrefix event.Name "PERF_METRICS.") then
    false
  -- PEBS events
  else if ¬ md.SupportsPEBS ∧
      (event.Name = "INT_MISC.UNKNOWN_BRANCH_CYCLES" ∨ event.Name = "UOPS_RETIRED.MS") then
    false
  -- short-circuit for cpu events that aren't off-core response events
  else if event.Device = "cpu" ∧
      ¬ (goHasPrefix event.Name "OCR" ∨ goHasPrefix event.Name "OFFCORE_REQUESTS_OUTSTANDING") then
    true
  -- off-core response events
  else if event.Device = "cpu" ∧
      (goHasPrefix event.Name "OCR" ∨ goHasPrefix event.Name "OFFCORE_REQUESTS_OUTSTANDING") then
    if ¬ (md.SupportsOCR ∧ md.SupportsUncore) then false
    else if scope = .process ∨ scope = .cgroup then false
    else true
  -- uncore events need uncore support
  else if ¬ md.SupportsUncore ∧ goHasPrefix event.Name "UNC" then
    false
  -- device-qualified (uncore) events
  else if ¬ (event.Device = "cpu") ∧ ¬ (event.Device = "") then
    if scope = .process ∨ scope = .cgroup then false
    else if ¬ uncoreDeviceExists md event.Device then false
    else if ¬ containsSub event.Raw "umask" ∧ ¬ containsSub event.Raw "event" then false
    else true
  -- ref-cycles
  else if ¬ md.SupportsRefCycles ∧ containsSub event.Name "ref-cycles" then
    false
  -- cstate and power events at process/cgroup scope
  else if (scope = .process ∨ scope = .cgroup) ∧
      (containsSub event.Name "cstate_" ∨ containsSub event.Name "power/energy") then
    false
  -- must appear in the perf list output
  else if ¬ containsSub md.PerfSupportedEvents ⟨(goSplitChar ':' event.Name.data).headD []⟩ then
    false
  else
    true

/-! ### The uncore raw-token pattern

`regexp.MustCompile` of
`(\w+)/event=(0x[0-9,a-f,A-F]+),umask=(0x[0-9,a-f,A-F]+.*),name='(.*)'`
applied through `FindStringSubmatch`: the leftmost starting position wins, and
at that position the captures follow Go's backtracking-greedy semantics.  Note
that the character class `[0-9,a-f,A-F]` contains the comma literally, `.`
matches any character except a newline, and `\w` is `[0-9A-Za-z_]`. -/

/-- `\w`. -/
def isWordChar (c : Char) : Bool := c.isAlphanum || c = '_'

/-- The class `[0-9,a-f,A-F]` (the commas are members). -/
def isHexClassChar (c : Char) : Bool :=
  (48 ≤ c.toNat && c.toNat ≤ 57) || c = ',' ||
  (97 ≤ c.toNat && c.toNat ≤ 102) || (65 ≤ c.toNat && c.toNat ≤ 70)

/-- `(.*)'` at the end of the pattern: greedy, so the capture runs to the last
quote reachable without crossing a newline. -/
def matchNameCapture (t : List Char) : Option (List Char) :=
  (List.range t.length).reverse.findSome? fun q =>
    if t.get? q == some '\'' && !(t.take q).contains '\n' then some (t.take q)
    else none

/-- `([0-9,a-f,A-F]+.*),name='(.*)'`: the first capture is class-chars then
any chars (greedy, backtracking to the rightmost feasible split before
`,name='`); returns (that capture without its `0x` prefix, the name capture). -/
def matchUmaskTail (r3 : List Char) : Option (List Char × List Char) :=
  let c3max := (r3.takeWhile isHexClassChar).length
  if c3max = 0 then none
  else
    (List.range (r3.length + 1)).reverse.findSome? fun p =>
      if p = 0 then none
      else if ",name='".data.isPrefixOf (r3.drop p) &&
          !((r3.drop (min c3max p)).take (p - min c3max p)).contains '\n' then
        (matchNameCapture (r3.drop (p + 7))).map fun c4 => (r3.take p, c4)
      else none

/-- `([0-9,a-f,A-F]+),umask=0x` then the tail: the event-code capture is
greedy with backtracking (the class contains the comma, so the separator comma
is found by giving characters back). -/
def matchEventTail (r2 : List Char) : Option (List Char × List Char × List Char) :=
  let c2max := (r2.takeWhile isHexClassChar).length
  (List.range (c2max + 1)).reverse.findSome? fun a =>
    if a = 0 then none
    else if ",umask=0x".data.isPrefixOf (r2.drop a) then
      (matchUmaskTail (r2.drop (a + 9))).map fun pr => (r2.take a, pr.1, pr.2)
    else none

/-- A whole-pattern match attempt at one starting position (`s` is the suffix
of the subject beginning there): `(\w+)/event=0x` then the rest. -/
def uncoreRegexMatchAt (s : List Char) : Option (String × String × String × String) :=
  let w := s.takeWhile isWordChar
  if w.isEmpty then none
  else
    let r1 := s.drop w.length
    if "/event=0x".data.isPrefixOf r1 then
      (matchEventTail (r1.drop 9)).map fun m =>
        (⟨w⟩, ⟨'0' :: 'x' :: m.1⟩, ⟨'0' :: 'x' :: m.2.1⟩, ⟨m.2.2⟩)
    else none

/-- `re.FindStringSubmatch(raw)`: `none` when there is no match, otherwise
the four captures of the leftmost match. -/
def uncoreRegexFind (s : String) : Option (String × String × String × String) :=
  (List.range (s.data.length + 1)).findSome? fun i => uncoreRegexMatchAt (s.data.drop i)

/-- Failures of the expanders and loaders. -/
inductive ExpandErr where
  | format (raw : String)
  | panicked
deriving DecidableEq

/-- The per-event rewrite inside `expandUncoreGroup`, given the four captures:
AMD synthesizes unit `amd_<type>` and keeps the name; other vendors synthesize
`uncore_<type>_<id>` and append `.<id>` to the name. -/
def expandUncoreGroupEvent (vendor : String) (deviceID : Nat)
    (device : String) (m1 m2 m3 m4 : String) : EventDefinition :=
  if vendor = "AuthenticAMD" then
    { Name := m4
      Raw := "amd_" ++ m1 ++ "/event=" ++ m2 ++ ",umask=" ++ m3 ++ ",name='" ++ m4 ++ "'/"
      Device := device
      Description := "" }
  else
    let nm := m4 ++ "." ++ natDecimal deviceID
    { Name := nm
      Raw := "uncore_" ++ m1 ++ "_" ++ natDecimal deviceID ++ "/event=" ++ m2 ++
        ",umask=" ++ m3 ++ ",name='" ++ nm ++ "'/"
      Device := device
      Description := "" }

/-- One clone of the group for one device id (the inner loop of
`expandUncoreGroup`): the first raw token that does not match the pattern
aborts with a format error. -/
def expandUncoreGroupClone (vendor : String) (deviceID : Nat) :
    GroupDefinition → Except ExpandErr GroupDefinition
  | [] => .ok []
  | e :: rest =>
    match uncoreRegexFind e.Raw with
    | none => .error (.format e.Raw)
    | some (m1, m2, m3, m4) =>
      match expandUncoreGroupClone vendor deviceID rest with
      | .error err => .error err
      | .ok rest' => .ok (expandUncoreGroupEvent vendor deviceID e.Device m1 m2 m3 m4 :: rest')

/-- `expandUncoreGroup`: one clone of the group per device id, in id order. -/
def expandUncoreGroup (group : GroupDefinition) (ids : List Nat) (vendor : String) :
    Except ExpandErr (List GroupDefinition) :=
  match ids with
  | [] => .ok []
  | id :: rest =>
    match expandUncoreGroupClone vendor id group with
    | .error e => .error e
    | .ok g =>
      match expandUncoreGroup group rest vendor with
      | .error e => .error e
      | .ok r => .ok (g :: r)

/-- `expandUncoreGroups`: a group whose first event's device is a known uncore
device type is replaced in place by its expansions (dropped with a warning when
the type has no instances); other groups pass through unchanged.  `group[0]`
panics on an empty group. -/
def expandUncoreGroups (groups : List GroupDefinition) (md : Metadata) :
    Except ExpandErr (List GroupDefinition) :=
  match groups with
  | [] => .ok []
  | g :: rest =>
    match g with
    | [] => .error .panicked
    | e0 :: _ =>
      if uncoreDeviceExists md e0.Device then
        if (uncoreDeviceIds md e0.Device).length = 0 then
          expandUncoreGroups rest md
        else
          match expandUncoreGroup g (uncoreDeviceIds md e0.Device) md.Vendor with
          | .error e => .error e
          | .ok ngs =>
            match expandUncoreGroups rest md with
            | .error e => .error e
            | .ok r => .ok (ngs ++ r)
      else
        match expandUncoreGroups rest md with
        | .error e => .error e
        | .ok r => .ok (g :: r)

/-- Failures of the x86 loader. -/
inductive LoadErr where
  | format (line : String)
  | parsePanicked
  | expand (e : ExpandErr)
deriving DecidableEq

/-- `mapset.Set.Add`: the uncollectable names are a set (deduplicated). -/
def addUniqueName (unc : List String) (n : String) : List String :=
  if unc.contains n then unc else unc ++ [n]

/-- The scanner loop of `LoadEventGroups` (x86 path): skip blank and `#`
lines, strip the trailing separator, parse, abbreviate, filter, and flush the
current group at a `;` terminator (an all-filtered group is dropped).  A parse
failure aborts the whole load. -/
def scanLines (scope : Scope) (md : Metadata) :
    List String → List GroupDefinition → GroupDefinition → List String →
    Except LoadErr (List GroupDefinition × List String)
  | [], groups, _group, unc => .ok (groups, unc)
  | line :: rest, groups, group, unc =>
    let l := goTrim line.data
    if l.isEmpty then scanLines scope md rest groups group unc
    else if l.headD ' ' = '#' then scanLines scope md rest groups group unc
    else
      match parseEventDefinition ⟨l.dropLast⟩ with
      | .formatError m => .error (.format m)
      | .panicked => .error .parsePanicked
      | .ok ev0 =>
        let ev : EventDefinition :=
          { ev0 with Name := abbreviateEventName ev0.Name, Raw := abbreviateEventName ev0.Raw }
        let group' := if isCollectableEvent scope ev md then group ++ [ev] else group
        let unc' := if isCollectableEvent scope ev md then unc else addUniqueName unc ev.Name
        if l.getLastD ' ' = ';' then
          scanLines scope md rest (if group'.length > 0 then groups ++ [group'] else groups) [] unc'
        else
          scanLines scope md rest groups group' unc'

/-- `LoadEventGroups`, x86 path, with the event definition file abstracted to
the list of lines the scanner reads: scan, then expand the uncore groups. -/
def LoadEventGroups (scope : Scope) (lines : List String) (md : Metadata) :
    Except LoadErr (List GroupDefinition × List String) :=
  match scanLines scope md lines [] [] [] with
  | .error e => .error e
  | .ok (groups, unc) =>
    match expandUncoreGroups groups md with
    | .error e => .error (.expand e)
    | .ok gs => .ok (gs, unc)

/-- `ARM64Event`: one record of an ARM PMU event JSON file. -/
structure ARM64Event where
  ArchStdEvent : String
  PublicDescription : String
deriving DecidableEq

/-- What reading one directory entry's file yields: `os.ReadFile` /
`resources.ReadFile` failure, `json.Unmarshal` failure, or the parsed array. -/
inductive ArmFileData where
  | readError (msg : String)
  | parseError (msg : String)
  | events (evs : List ARM64Event)
deriving DecidableEq

/-- One entry of the ARM event directory listing. -/
structure ArmDirEntry where
  name : String
  isDir : Bool
  data : ArmFileData
deriving DecidableEq

/-- `strings.ToLower` on ASCII input. -/
def goToLower (s : String) : String :=
  ⟨s.data.map Char.toLower⟩

/-- The event built from one JSON record in `LoadArmEventGroups`. -/
def armEventFromJson (a : ARM64Event) : EventDefinition :=
  { Name := a.ArchStdEvent, Raw := a.ArchStdEvent, Device := "cpu",
    Description := a.PublicDescription }

/-- One file's group: its collectable events, in file order. -/
def armCollectGroup (scope : Scope) (md : Metadata) (evs : List ARM64Event) : GroupDefinition :=
  evs.filterMap fun a =>
    let ev := armEventFromJson a
    if isCollectableEvent scope ev md then some ev else none

/-- The directory loop of `LoadArmEventGroups`.  `err` is the Go named return
value: a failed `ReadFile`/`Unmarshal` assigns it and `continue`s (the failure
is meant to be non-fatal), and a later successful file re-assigns it to nil;
whatever it holds when the loop ends is returned.  The named return
`uncollectableEvents` is never assigned, so it is always nil. -/
def armLoop (scope : Scope) (md : Metadata) :
    List ArmDirEntry → List GroupDefinition → Option String →
    List GroupDefinition × List String × Option String
  | [], groups, err => (groups, [], err)
  | e :: rest, groups, err =>
    if ¬ e.isDir ∧ goHasSuffix (goToLower e.name) ".json" then
      match e.data with
      | .readError m => armLoop scope md rest groups (some m)
      | .parseError m => armLoop scope md rest groups (some m)
      | .events evs =>
        let g := armCollectGroup scope md evs
        armLoop scope md rest (if g.length > 0 then groups ++ [g] else groups) none
    else armLoop scope md rest groups err

/-- `LoadArmEventGroups` with directory resolution abstracted to the listing
it returns: returns `(groups, uncollectableEvents, err)`. -/
def LoadArmEventGroups (scope : Scope) (entries : List ArmDirEntry) (md : Metadata) :
    List GroupDefinition × List String × Option String :=
  armLoop scope md entries [] none

/-! ### The conditional metric-formula transformer -/

/-- A character that can be part of an identifier (for `if`/`else` token
boundaries). -/
def isIdentChar (c : Char) : Bool := c.isAlphanum || c = '_'

/-- Find the first occurrence of the word `tok` at parenthesis depth 0,
scanning with the previous character `prev`, current index `i` and current
depth `d`; returns the index of the occurrence. -/
def findTokenAtDepth (tok : List Char) : Option Char → Nat → Nat → List Char → Option Nat
  | _prev, _i, _d, [] => none
  | prev, i, d, c :: rest =>
    let boundaryBefore := match prev with | none => true | some p => ! isIdentChar p
    let boundaryAfter :=
      match ((c :: rest).drop tok.length).head? with
      | none => true
      | some a => ! isIdentChar a
    if d == 0 && tok.isPrefixOf (c :: rest) && boundaryBefore && boundaryAfter then some i
    else
      findTokenAtDepth tok (some c) (i + 1)
        (if c = '(' then d + 1 else if c = ')' then d - 1 else d) rest

/-- Modelled from the spec: the implementation of `transformConditional`
(the metric-definition loader's conditional rewrite) is not among the provided
source files — only its tests are.  Per §4.6 of the spec: a formula with no
`if` token is returned unchanged; an `if` with no matching `else` at the same
parenthesis depth is a syntax error naming the fragment; otherwise the
condition is the trimmed text strictly between `if` and `else` at that depth,
the then-operand is the trimmed text before the `if`, the else-operand the
trimmed text after the `else`, the parts are transformed recursively, and the
output uses the canonical separators `" ? "` and `" : "`.  (The spec's
innermost-first descent into parenthesized sub-expressions, and its known
whitespace quirk there, are not modelled: the properties checked here only
exercise conditionals at the top parenthesis depth.) -/
def transformCondAux : Nat → List Char → Except String (List Char)
  | 0, _s => .error "recursion limit exceeded"
  | fuel + 1, s =>
    match findTokenAtDepth "if".data none 0 0 s with
    | none => .ok s
    | some i =>
      let afterIf := s.drop (i + 2)
      match findTokenAtDepth "else".data none 0 0 afterIf with
      | none => .error ("no else found to match if: " ++ ⟨s⟩)
      | some j => do
        let c ← transformCondAux fuel (goTrim (afterIf.take j))
        let t ← transformCondAux fuel (goTrim (s.take i))
        let e ← transformCondAux fuel (goTrim (afterIf.drop (j + 4)))
        .ok (c ++ " ? ".data ++ t ++ " : ".data ++ e)

/-- Modelled from the spec (§4.6): rewrite `EXPR if COND else EXPR2` into
`COND ? EXPR : EXPR2`. -/
def transformConditional (s : String) : Except String String :=
  (transformCondAux (s.data.length + 1) s.data).map fun l => ⟨l⟩

/-! ### Shared lemmas -/

/-- Splitting a list that does not contain the separator yields the singleton. -/
theorem goSplitChar_no_sep (sep : Char) :
    ∀ s : List Char, sep ∉ s → goSplitChar sep s = [s] := by
  intro s
  induction s with
  | nil => intro _; rfl
  | cons c rest ih =>
    intro h
    have hc : ¬ c = sep := by
      intro hc; exact h (hc ▸ List.mem_cons_self c rest)
    have hrest : sep ∉ rest := fun hm => h (List.mem_cons_of_mem c hm)
    simp only [goSplitChar, ih hrest, if_neg hc]

/-- A replacement whose pattern does not occur leaves the list unchanged. -/
theorem goReplaceAux_no_occurrence (old new : List Char) :
    ∀ s : List Char, containsSubList old s = false → goReplaceAux old new 0 s = s := by
  intro s
  induction s with
  | nil => intro _; rfl
  | cons c cs ih =>
    intro h
    rw [containsSubList] at h
    by_cases hp : old.isPrefixOf (c :: cs) = true
    · simp only [hp, if_true] at h
      exact absurd h (by simp)
    · simp only [hp, if_false] at h
      rw [goReplaceAux, if_neg (fun hand => hp hand.2), ih h]

/-- A replacement whose pattern does not occur leaves the string unchanged. -/
theorem goReplace_no_occurrence (s old new : String) (h : containsSub s old = false) :
    goReplace s old new = s := by
  unfold goReplace
  rw [goReplaceAux_no_occurrence old.data new.data s.data h]

/-- Folding the abbreviation table over a string none of whose keys occur in
it is the identity. -/
theorem abbrev_foldl_no_occurrence :
    ∀ (l : List (String × String)) (t : String),
      (∀ ab ∈ l, containsSub t ab.1 = false) →
      l.foldl (fun e ab => goReplace e ab.1 ab.2) t = t := by
  intro l
  induction l with
  | nil => intro t _; rfl
  | cons ab rest ih =>
    intro t h
    have h1 : containsSub t ab.1 = false := h ab (List.mem_cons_self ab rest)
    have hstep : goReplace t ab.1 ab.2 = t := goReplace_no_occurrence t ab.1 ab.2 h1
    simp only [List.foldl_cons, hstep]
    exact ih t (fun x hx => h x (List.mem_cons_of_mem ab hx))

/-! ### C9, C10: parseEventDefinition -/

/-- C9: every input line containing no comma parses successfully into an
`EventDefinition` with `Name` and `Raw` equal to the line and an empty
`Device`. -/
theorem c9_single_field_parse (line : String) (h : ',' ∉ line.data) :
    parseEventDefinition line =
      .ok { Raw := line, Name := line, Device := "", Description := "" } := by
  obtain ⟨data⟩ := line
  unfold parseEventDefinition
  rw [show (String.mk data).data = data from rfl, goSplitChar_no_sep ',' data h]
  simp

/-- Witness for `c9_single_field_parse` at the concrete line
`"instructions"`. -/
theorem c9_single_field_parse_witness :
    parseEventDefinition "instructions" =
      .ok { Raw := "instructions", Name := "instructions", Device := "",
            Description := "" } :=
  c9_single_field_parse "instructions" (by decide)

/-- C10: `parseEventDefinition` is not total on multi-field lines: the line
`"a,b"` (last field shorter than 5 characters, `nameField[:5]` out of range)
and the line `"a,name="` (last field exactly `name=`, so the slice
`nameField[6:len-2]` has inverted bounds) both panic instead of returning the
format error. -/
theorem c10_parse_panics :
    parseEventDefinition "a,b" = .panicked ∧
    parseEventDefinition "a,name=" = .panicked :=
  ⟨rfl, rfl⟩

/-! ### C4: the conditional transformer's literal cases -/

/-- C4: `transformConditional` maps each literal input of spec §8 to exactly
its stated output: no-`if` input unchanged, `if` without `else` is an error,
and the three conditional forms rewrite to the stated ternary strings. -/
theorem c4_transform_literal_cases :
    transformConditional "100 * x / y" = .ok "100 * x / y" ∧
    (∃ msg, transformConditional "100 * x / y if z" = .error msg) ∧
    transformConditional "a if b else c" = .ok "b ? a : c" ∧
    transformConditional "(1 - x / y) if z > 1 else 0" = .ok "z > 1 ? (1 - x / y) : 0" ∧
    transformConditional "1 - a / b if c > 1 else 0" = .ok "c > 1 ? 1 - a / b : 0" :=
  ⟨rfl, ⟨"no else found to match if: 100 * x / y if z", rfl⟩, rfl, rfl, rfl⟩

/-! ### C8: abbreviation idempotence -/

/-- C8 counterexample: abbreviation is not idempotent.  In
`"IO_PCIRDCURA_MISS_DRD"` the first pass rewrites the key `IO_PCIRDCUR` to
`IPCI`, whose trailing `I` joins the remaining text into a fresh occurrence of
the earlier key `IA_MISS_DRD`, which only a second pass rewrites. -/
theorem c8_counterexample :
    abbreviateEventName (abbreviateEventName "IO_PCIRDCURA_MISS_DRD") ≠
      abbreviateEventName "IO_PCIRDCURA_MISS_DRD" := by
  decide

/-- C8 amended: abbreviation is idempotent at every string whose abbreviated
form contains no occurrence of a table key (which holds for the catalog's
event names; the counterexample shows the unrestricted claim fails). -/
theorem c8_abbreviate_idempotent (s : String)
    (h : ∀ ab ∈ abbreviations, containsSub (abbreviateEventName s) ab.1 = false) :
    abbreviateEventName (abbreviateEventName s) = abbreviateEventName s :=
  abbrev_foldl_no_occurrence abbreviations (abbreviateEventName s) h

/-- Witness for `c8_abbreviate_idempotent` at the concrete uncore event name
`"UNC_CHA_TOR_INSERTS.IA_MISS_CRD"` (abbreviated form `"UNCCTI.IMC"`). -/
theorem c8_abbreviate_idempotent_witness :
    abbreviateEventName (abbreviateEventName "UNC_CHA_TOR_INSERTS.IA_MISS_CRD") =
      abbreviateEventName "UNC_CHA_TOR_INSERTS.IA_MISS_CRD" :=
  c8_abbreviate_idempotent "UNC_CHA_TOR_INSERTS.IA_MISS_CRD" (by decide)

/-! ### C1: the device-qualified branch of the collectability filter -/

set_option maxHeartbeats 2000000

/-- C1 counterexample: in system-wide scope, with device `"cha"` present in
the inventory, an event whose raw token contains `"event"` but not `"umask"`
is still accepted — the code rejects only when *both* substrings are missing,
not unless both are present. -/
theorem c1_counterexample :
    isCollectableEvent .system
      { Raw := "event=0x1", Name := "X", Device := "cha", Description := "" }
      { Architecture := "x86_64", Vendor := "GenuineIntel", Microarchitecture := "spr",
        PerfSupportedEvents := "", UncoreDeviceIDs := [("cha", [0])],
        SupportsFixedTMA := true, SupportsPEBS := true, SupportsOCR := true,
        SupportsUncore := true, SupportsRefCycles := true } = true ∧
    containsSub "event=0x1" "umask" = false := by
  decide

/-- C1 amended: for an event with a non-empty, non-`"cpu"` device present in
the uncore inventory, acceptance in system-wide scope implies the raw token
contains `"umask"` *or* `"event"` (not necessarily both), and in per-process
or per-cgroup scope the event is always rejected. -/
theorem c1_device_scope_filter (e : EventDefinition) (md : Metadata)
    (h1 : e.Device ≠ "") (h2 : e.Device ≠ "cpu")
    (h3 : uncoreDeviceExists md e.Device = true) :
    (isCollectableEvent .system e md = true →
      (containsSub e.Raw "umask" || containsSub e.Raw "event") = true) ∧
    isCollectableEvent .process e md = false ∧
    isCollectableEvent .cgroup e md = false := by
  refine ⟨?_, ?_, ?_⟩ <;>
    (simp only [isCollectableEvent]; split_ifs <;> simp_all <;>
      (cases hbu : containsSub e.Raw "umask" <;> simp_all))

/-- Witness for `c1_device_scope_filter` at a concrete `cha` event. -/
theorem c1_device_scope_filter_witness :
    (isCollectableEvent .system
        { Raw := "cha/event=0x35,umask=0xc80ffe01,name='X'/", Name := "X",
          Device := "cha", Description := "" }
        { Architecture := "x86_64", Vendor := "GenuineIntel", Microarchitecture := "spr",
          PerfSupportedEvents := "", UncoreDeviceIDs := [("cha", [0, 1])],
          SupportsFixedTMA := true, SupportsPEBS := true, SupportsOCR := true,
          SupportsUncore := true, SupportsRefCycles := true } = true →
      (containsSub "cha/event=0x35,umask=0xc80ffe01,name='X'/" "umask" ||
        containsSub "cha/event=0x35,umask=0xc80ffe01,name='X'/" "event") = true) ∧
    isCollectableEvent .process
      { Raw := "cha/event=0x35,umask=0xc80ffe01,name='X'/", Name := "X",
        Device := "cha", Description := "" }
      { Architecture := "x86_64", Vendor := "GenuineIntel", Microarchitecture := "spr",
        PerfSupportedEvents := "", UncoreDeviceIDs := [("cha", [0, 1])],
        SupportsFixedTMA := true, SupportsPEBS := true, SupportsOCR := true,
        SupportsUncore := true, SupportsRefCycles := true } = false ∧
    isCollectableEvent .cgroup
      { Raw := "cha/event=0x35,umask=0xc80ffe01,name='X'/", Name := "X",
        Device := "cha", Description := "" }
      { Architecture := "x86_64", Vendor := "GenuineIntel", Microarchitecture := "spr",
        PerfSupportedEvents := "", UncoreDeviceIDs := [("cha", [0, 1])],
        SupportsFixedTMA := true, SupportsPEBS := true, SupportsOCR := true,
        SupportsUncore := true, SupportsRefCycles := true } = false :=
  c1_device_scope_filter _ _ (by decide) (by decide) (by decide)

/-! ### C2: the ARM loader's error on a trailing bad file -/

/-- The metadata used by the ARM-loader claims. -/
def mdArm : Metadata :=
  { Architecture := "aarch64", Vendor := "ARM", Microarchitecture := "Neoverse V2",
    PerfSupportedEvents := "CPU_CYCLES", UncoreDeviceIDs := [],
    SupportsFixedTMA := false, SupportsPEBS := false, SupportsOCR := false,
    SupportsUncore := false, SupportsRefCycles := true }

/-- C2: a file-level failure is *not* always non-fatal.  The loop assigns the
failure to the named return `err` and `continue`s, and only a *later*
successful file resets it: with a well-formed `general.json` followed by an
unparsable `bad.json`, the loader returns the good file's groups *and* a
non-nil error, while the same two files in the opposite order return a nil
error.  The skip-and-continue intent (and the spec) say the error should be
nil in both cases. -/
theorem c2_arm_error_leak :
    LoadArmEventGroups .system
      [{ name := "general.json", isDir := false,
         data := .events [{ ArchStdEvent := "CPU_CYCLES", PublicDescription := "d" }] },
       { name := "bad.json", isDir := false, data := .parseError "invalid JSON" }]
      mdArm =
      ([[{ Raw := "CPU_CYCLES", Name := "CPU_CYCLES", Device := "cpu", Description := "d" }]],
       [], some "invalid JSON") ∧
    LoadArmEventGroups .system
      [{ name := "bad.json", isDir := false, data := .parseError "invalid JSON" },
       { name := "general.json", isDir := false,
         data := .events [{ ArchStdEvent := "CPU_CYCLES", PublicDescription := "d" }] }]
      mdArm =
      ([[{ Raw := "CPU_CYCLES", Name := "CPU_CYCLES", Device := "cpu", Description := "d" }]],
       [], none) :=
  ⟨rfl, rfl⟩

/-! ### C3, C5 counterexamples: events rewritten by uncore expansion -/

/-- Metadata for the C3 counterexample: one `cha` uncore device instance and
two supported plain event names. -/
def mdC3 : Metadata :=
  { Architecture := "x86_64", Vendor := "GenuineIntel", Microarchitecture := "spr",
    PerfSupportedEvents := "M N", UncoreDeviceIDs := [("cha", [0])],
    SupportsFixedTMA := true, SupportsPEBS := true, SupportsOCR := true,
    SupportsUncore := true, SupportsRefCycles := true }

/-- The `cha` event of the C3 counterexample group, after expansion. -/
def evM0 : EventDefinition :=
  { Raw := "uncore_cha_0/event=0x3,umask=0x4,name='M.0'/", Name := "M.0",
    Device := "cha", Description := "" }

/-- The device-less event of the C3 counterexample group, after expansion: its
rewritten name `N.0` is no longer in the supported-events listing. -/
def evN0 : EventDefinition :=
  { Raw := "uncore_b_0/event=0x1,umask=0x2,name='N.0'/", Name := "N.0",
    Device := "", Description := "" }

/-- C3 counterexample: a successful load whose returned groups contain an
event on which the collectability predicate evaluates to false.  The second
catalog line parses to a device-less event (first field `/a` gives device
`""`) whose raw token still matches the uncore pattern; it lands in a group
led by a `cha` event, uncore expansion rewrites its name to `N.0`, and the
rewritten event fails the predicate's supported-events rule. -/
theorem c3_counterexample :
    LoadEventGroups .system
      ["cha/event=0x3,umask=0x4,name='M'/,", "/a,b/event=0x1,umask=0x2,name='N'/;"]
      mdC3 = .ok ([[evM0, evN0]], []) ∧
    evN0 ∈ [evM0, evN0] ∧
    isCollectableEvent .system evN0 mdC3 = false :=
  ⟨rfl, by simp, by decide⟩

/-- The uncollectable-event claims' input group: a single matching `cha`
event. -/
def chaGroupM : GroupDefinition :=
  [{ Raw := "cha/event=0x3,umask=0x4,name='M'/", Name := "M", Device := "cha",
     Description := "" }]

/-- C5 counterexample: for vendor `"AuthenticAMD"` the rewrite embeds no
device id, so expanding over the two instance ids 0 and 1 produces two
*identical* groups — the clones' names and raw tokens are not distinct. -/
theorem c5_counterexample :
    expandUncoreGroup chaGroupM [0, 1] "AuthenticAMD" =
      .ok [[{ Raw := "amd_cha/event=0x3,umask=0x4,name='M'/", Name := "M",
              Device := "cha", Description := "" }],
           [{ Raw := "amd_cha/event=0x3,umask=0x4,name='M'/", Name := "M",
              Device := "cha", Description := "" }]] :=
  rfl

set_option maxHeartbeats 1000000

theorem scanLines_abort (scope : Scope) (md : Metadata) (bad msg : String)
    (l2 l2' : List String)
    (hne : (goTrim bad.data).isEmpty = false)
    (hhash : ¬ (goTrim bad.data).headD ' ' = '#')
    (hp : parseEventDefinition ⟨(goTrim bad.data).dropLast⟩ = .formatError msg) :
    ∀ (l1 : List String) (gacc : List GroupDefinition) (grp : GroupDefinition)
      (unc : List String),
      scanLines scope md (l1 ++ bad :: l2) gacc grp unc =
        scanLines scope md (l1 ++ bad :: l2') gacc grp unc ∧
      ∃ e, scanLines scope md (l1 ++ bad :: l2) gacc grp unc = .error e := by
  have hne' : goTrim bad.data ≠ [] := by
    intro hEq; rw [hEq] at hne; simp at hne
  have hhash' : ¬ (goTrim bad.data).head?.getD ' ' = '#' := by
    cases h : goTrim bad.data with
    | nil => exact absurd h hne'
    | cons c t => rw [h] at hhash; simpa using hhash
  intro l1
  induction l1 with
  | nil =>
    intro gacc grp unc
    refine ⟨?_, LoadErr.format msg, ?_⟩ <;> simp [scanLines, hne', hhash', hp]
  | cons a l1 ih =>
    intro gacc grp unc
    by_cases ha1 : goTrim a.data = []
    · simpa [scanLines, ha1] using ih gacc grp unc
    · by_cases ha2 : (goTrim a.data).head?.getD ' ' = '#'
      · simpa [scanLines, ha1, ha2] using ih gacc grp unc
      · cases hpe : parseEventDefinition ⟨(goTrim a.data).dropLast⟩ with
        | formatError m =>
          refine ⟨?_, LoadErr.format m, ?_⟩ <;> simp [scanLines, ha1, ha2, hpe]
        | panicked =>
          refine ⟨?_, LoadErr.parsePanicked, ?_⟩ <;> simp [scanLines, ha1, ha2, hpe]
        | ok ev =>
          by_cases ha3 : (goTrim a.data).getLast?.getD ' ' = ';'
          · simpa [scanLines, ha1, ha2, hpe, ha3] using ih _ _ _
          · simpa [scanLines, ha1, ha2, hpe, ha3] using ih _ _ _

/-- C6: one malformed data line aborts the entire x86 load: whatever precedes
it, the result is an error, and the lines after the malformed one are never
processed (the result does not depend on them). -/
theorem c6_fail_fast (scope : Scope) (md : Metadata) (l1 l2 l2' : List String)
    (bad msg : String)
    (hne : (goTrim bad.data).isEmpty = false)
    (hhash : ¬ (goTrim bad.data).headD ' ' = '#')
    (hp : parseEventDefinition ⟨(goTrim bad.data).dropLast⟩ = .formatError msg) :
    (∃ e, LoadEventGroups scope (l1 ++ bad :: l2) md = .error e) ∧
    LoadEventGroups scope (l1 ++ bad :: l2) md =
      LoadEventGroups scope (l1 ++ bad :: l2') md := by
  obtain ⟨heq, e, herr⟩ :=
    scanLines_abort scope md bad msg l2 l2' hne hhash hp l1 [] [] []
  constructor
  · exact ⟨e, by unfold LoadEventGroups; rw [herr]⟩
  · unfold LoadEventGroups; rw [heq]

/-- Witness for `c6_fail_fast`: a good line, then the malformed line
`"a,xxxxx;"`, then a line that is never reached. -/
theorem c6_fail_fast_witness :
    (∃ e, LoadEventGroups .system (["cpu-cycles,"] ++ "a,xxxxx;" :: ["ignored;"])
      { Architecture := "x86_64", Vendor := "GenuineIntel", Microarchitecture := "icx",
        PerfSupportedEvents := "cpu-cycles", UncoreDeviceIDs := [],
        SupportsFixedTMA := true, SupportsPEBS := true, SupportsOCR := true,
        SupportsUncore := true, SupportsRefCycles := true } = .error e) ∧
    LoadEventGroups .system (["cpu-cycles,"] ++ "a,xxxxx;" :: ["ignored;"])
      { Architecture := "x86_64", Vendor := "GenuineIntel", Microarchitecture := "icx",
        PerfSupportedEvents := "cpu-cycles", UncoreDeviceIDs := [],
        SupportsFixedTMA := true, SupportsPEBS := true, SupportsOCR := true,
        SupportsUncore := true, SupportsRefCycles := true } =
      LoadEventGroups .system (["cpu-cycles,"] ++ "a,xxxxx;" :: [])
      { Architecture := "x86_64", Vendor := "GenuineIntel", Microarchitecture := "icx",
        PerfSupportedEvents := "cpu-cycles", UncoreDeviceIDs := [],
        SupportsFixedTMA := true, SupportsPEBS := true, SupportsOCR := true,
        SupportsUncore := true, SupportsRefCycles := true } :=
  c6_fail_fast .system _ ["cpu-cycles,"] ["ignored;"] [] "a,xxxxx;" "a,xxxxx"
    (by decide) (by decide) (by decide)

/-- The fate of one group under `expandUncoreGroups`, as a total function
(meaningful when expansion succeeded): a group led by a recognized uncore
device type becomes its per-id expansions (none when the type has no
instances), any other group passes through unchanged. -/
def groupExpansion (md : Metadata) (g : GroupDefinition) : List GroupDefinition :=
  match g with
  | [] => []
  | e0 :: _ =>
    if uncoreDeviceExists md e0.Device then
      match expandUncoreGroup g (uncoreDeviceIds md e0.Device) md.Vendor with
      | .ok ngs => ngs
      | .error _ => []
    else [g]

theorem expandUncoreGroups_ok_bind (md : Metadata) :
    ∀ (gs out : List GroupDefinition), expandUncoreGroups gs md = .ok out →
      out = gs.flatMap (groupExpansion md) := by
  intro gs
  induction gs with
  | nil =>
    intro out h
    simp only [expandUncoreGroups, Except.ok.injEq] at h
    subst h
    simp
  | cons g rest ih =>
    intro out h
    cases g with
    | nil => simp [expandUncoreGroups] at h
    | cons e0 t =>
      rw [expandUncoreGroups] at h
      by_cases hex : uncoreDeviceExists md e0.Device = true
      · rw [if_pos hex] at h
        by_cases hz : (uncoreDeviceIds md e0.Device).length = 0
        · rw [if_pos hz] at h
          have hids : uncoreDeviceIds md e0.Device = [] := List.length_eq_zero.mp hz
          have hrec := ih out h
          simp [List.flatMap_cons, hrec, groupExpansion, hex, hids, expandUncoreGroup]
        · rw [if_neg hz] at h
          cases hx : expandUncoreGroup (e0 :: t) (uncoreDeviceIds md e0.Device) md.Vendor with
          | error e => rw [hx] at h; simp at h
          | ok ngs =>
            rw [hx] at h
            cases hr : expandUncoreGroups rest md with
            | error e => rw [hr] at h; simp at h
            | ok r =>
              rw [hr] at h
              simp only [Except.ok.injEq] at h
              subst h
              simp [List.flatMap_cons, ih r hr, groupExpansion, hex, hx]
      · rw [if_neg hex] at h
        cases hr : expandUncoreGroups rest md with
        | error e => rw [hr] at h; simp at h
        | ok r =>
          rw [hr] at h
          simp only [Except.ok.injEq] at h
          subst h
          have hexf : uncoreDeviceExists md e0.Device = false := by
            cases hb : uncoreDeviceExists md e0.Device with
            | false => rfl
            | true => exact absurd hb hex
          simp [List.flatMap_cons, ih r hr, groupExpansion, hexf]

/-- C7: on success, `expandUncoreGroups` is exactly the in-order concatenation
of each input group's expansion: order is preserved, a recognized-device group
is replaced in place by its per-id expansions (in the inventory's id order,
per `groupExpansion`/`expandUncoreGroup`), and a group whose first event's
device is not a recognized uncore device type passes through unchanged. -/
theorem c7_expand_order (md : Metadata) (gs out : List GroupDefinition)
    (h : expandUncoreGroups gs md = .ok out) :
    out = gs.flatMap (groupExpansion md) ∧
    ∀ g ∈ gs, ∀ e0 t, g = e0 :: t → uncoreDeviceExists md e0.Device = false →
      groupExpansion md g = [g] :=
  ⟨expandUncoreGroups_ok_bind md gs out h,
   fun g _ e0 t hg hfalse => by subst hg; simp [groupExpansion, hfalse]⟩

/-- Witness for `c7_expand_order`: a pass-through cpu group followed by a
`cha` group expanded over instance ids 0 and 1. -/
theorem c7_expand_order_witness :
    [[{ Raw := "cpu-cycles", Name := "cpu-cycles", Device := "", Description := "" }],
     [{ Raw := "uncore_cha_0/event=0x3,umask=0x4,name='M.0'/", Name := "M.0",
        Device := "cha", Description := "" }],
     [{ Raw := "uncore_cha_1/event=0x3,umask=0x4,name='M.1'/", Name := "M.1",
        Device := "cha", Description := "" }]] =
      ([[{ Raw := "cpu-cycles", Name := "cpu-cycles", Device := "", Description := "" }],
        [{ Raw := "cha/event=0x3,umask=0x4,name='M'/", Name := "M", Device := "cha",
           Description := "" }]] : List GroupDefinition).flatMap
        (groupExpansion
          { Architecture := "x86_64", Vendor := "GenuineIntel", Microarchitecture := "spr",
            PerfSupportedEvents := "cpu-cycles", UncoreDeviceIDs := [("cha", [0, 1])],
            SupportsFixedTMA := true, SupportsPEBS := true, SupportsOCR := true,
            SupportsUncore := true, SupportsRefCycles := true }) :=
  (c7_expand_order
    { Architecture := "x86_64", Vendor := "GenuineIntel", Microarchitecture := "spr",
      PerfSupportedEvents := "cpu-cycles", UncoreDeviceIDs := [("cha", [0, 1])],
      SupportsFixedTMA := true, SupportsPEBS := true, SupportsOCR := true,
      SupportsUncore := true, SupportsRefCycles := true }
    [[{ Raw := "cpu-cycles", Name := "cpu-cycles", Device := "", Description := "" }],
     [{ Raw := "cha/event=0x3,umask=0x4,name='M'/", Name := "M", Device := "cha",
        Description := "" }]]
    [[{ Raw := "cpu-cycles", Name := "cpu-cycles", Device := "", Description := "" }],
     [{ Raw := "uncore_cha_0/event=0x3,umask=0x4,name='M.0'/", Name := "M.0",
        Device := "cha", Description := "" }],
     [{ Raw := "uncore_cha_1/event=0x3,umask=0x4,name='M.1'/", Name := "M.1",
        Device := "cha", Description := "" }]]
    (by rfl)).1

/-- The value re-read from a digit list, most significant first, folded onto
an initial accumulator. -/
def decValAux (a : Nat) : List Char → Nat
  | [] => a
  | c :: t => decValAux (a * 10 + (c.toNat - 48)) t

/-- The numeric shape of `natDecimalAux`'s output, with the same recursion. -/
def pushDigits : Nat → Nat → Nat → Nat
  | 0, a, n => a * 10 + n % 10
  | fuel + 1, a, n =>
    if n < 10 then a * 10 + n % 10
    else (pushDigits fuel a (n / 10)) * 10 + n % 10

theorem char_digit_toNat (n : Nat) :
    (digitChar (n % 10)).toNat - 48 = n % 10 := by
  have h : n % 10 < 10 := Nat.mod_lt _ (by omega)
  set m := n % 10 with hm
  interval_cases m <;> decide

theorem char_digit_isDigit (n : Nat) :
    (digitChar (n % 10)).isDigit = true := by
  have h : n % 10 < 10 := Nat.mod_lt _ (by omega)
  set m := n % 10 with hm
  interval_cases m <;> decide

theorem decValAux_cons (a : Nat) (c : Char) (t : List Char) :
    decValAux a (c :: t) = decValAux (a * 10 + (c.toNat - 48)) t := rfl

theorem natDecimalAux_zero (n : Nat) (acc : List Char) :
    natDecimalAux 0 n acc = digitChar (n % 10) :: acc := rfl

theorem natDecimalAux_succ (f n : Nat) (acc : List Char) :
    natDecimalAux (f + 1) n acc =
      if n < 10 then digitChar (n % 10) :: acc
      else natDecimalAux f (n / 10) (digitChar (n % 10) :: acc) := rfl

theorem pushDigits_zero (a n : Nat) : pushDigits 0 a n = a * 10 + n % 10 := rfl

theorem pushDigits_succ (f a n : Nat) :
    pushDigits (f + 1) a n =
      if n < 10 then a * 10 + n % 10
      else (pushDigits f a (n / 10)) * 10 + n % 10 := rfl

theorem decValAux_natDecimalAux :
    ∀ (fuel n : Nat) (acc : List Char) (a : Nat),
      decValAux a (natDecimalAux fuel n acc) = decValAux (pushDigits fuel a n) acc := by
  intro fuel
  induction fuel with
  | zero =>
    intro n acc a
    rw [natDecimalAux_zero, pushDigits_zero, decValAux_cons, char_digit_toNat]
  | succ f ih =>
    intro n acc a
    by_cases h : n < 10
    · rw [natDecimalAux_succ, pushDigits_succ, if_pos h, if_pos h, decValAux_cons,
        char_digit_toNat]
    · rw [natDecimalAux_succ, pushDigits_succ, if_neg h, if_neg h, ih, decValAux_cons,
        char_digit_toNat]

theorem pushDigits_zero_eq :
    ∀ (fuel n : Nat), n ≤ fuel → pushDigits fuel 0 n = n := by
  intro fuel
  induction fuel with
  | zero => intro n h; interval_cases n; rw [pushDigits_zero]
  | succ f ih =>
    intro n h
    by_cases hlt : n < 10
    · rw [pushDigits_succ, if_pos hlt, Nat.mod_eq_of_lt hlt]; omega
    · have hdiv : n / 10 ≤ f := by
        have := Nat.div_lt_self (by omega : 0 < n) (by omega : 1 < 10)
        omega
      rw [pushDigits_succ, if_neg hlt, ih _ hdiv]
      omega

theorem decValAux_nil (a : Nat) : decValAux a [] = a := rfl

theorem natDecimal_inj (a b : Nat) (h : natDecimal a = natDecimal b) : a = b := by
  have hd : natDecimalAux a a [] = natDecimalAux b b [] := congrArg String.data h
  have hva := decValAux_natDecimalAux a a [] 0
  have hvb := decValAux_natDecimalAux b b [] 0
  rw [hd] at hva
  rw [hva] at hvb
  rw [decValAux_nil, decValAux_nil, pushDigits_zero_eq a a (le_refl a),
    pushDigits_zero_eq b b (le_refl b)] at hvb
  exact hvb

theorem natDecimalAux_digits :
    ∀ (fuel n : Nat) (acc : List Char), (∀ c ∈ acc, c.isDigit = true) →
      ∀ c ∈ natDecimalAux fuel n acc, c.isDigit = true := by
  intro fuel
  induction fuel with
  | zero =>
    intro n acc hacc c hc
    rw [natDecimalAux_zero] at hc
    rcases List.mem_cons.mp hc with h | h
    · subst h; exact char_digit_isDigit n
    · exact hacc c h
  | succ f ih =>
    intro n acc hacc c hc
    by_cases h : n < 10
    · rw [natDecimalAux_succ, if_pos h] at hc
      rcases List.mem_cons.mp hc with h' | h'
      · subst h'; exact char_digit_isDigit n
      · exact hacc c h'
    · rw [natDecimalAux_succ, if_neg h] at hc
      refine ih (n / 10) _ ?_ c hc
      intro c' hc'
      rcases List.mem_cons.mp hc' with h' | h'
      · subst h'; exact char_digit_isDigit n
      · exact hacc c' h'

/-- A maximal digit run at the head of a list determines itself: if two
all-digit lists followed by non-digit-headed tails concatenate equally, the
runs are equal. -/
theorem digit_run_cancel :
    ∀ (a : List Char), (∀ c ∈ a, c.isDigit = true) →
    ∀ (b : List Char), (∀ c ∈ b, c.isDigit = true) →
    ∀ (s t : List Char),
      (∀ x, s.head? = some x → x.isDigit = false) →
      (∀ x, t.head? = some x → x.isDigit = false) →
      a ++ s = b ++ t → a = b := by
  intro a
  induction a with
  | nil =>
    intro _ b hb s t hs _ht heq
    cases b with
    | nil => rfl
    | cons c bt =>
      exfalso
      simp only [List.nil_append, List.cons_append] at heq
      subst heq
      have h1 := hs c rfl
      have h2 := hb c (List.mem_cons_self c bt)
      rw [h1] at h2
      exact Bool.false_ne_true h2
  | cons c at' ih =>
    intro ha b hb s t hs ht heq
    cases b with
    | nil =>
      exfalso
      simp only [List.cons_append, List.nil_append] at heq
      subst heq
      have h1 := ht c rfl
      have h2 := ha c (List.mem_cons_self c at')
      rw [h1] at h2
      exact Bool.false_ne_true h2
    | cons d bt =>
      simp only [List.cons_append, List.cons.injEq] at heq
      obtain ⟨hcd, htail⟩ := heq
      subst hcd
      have := ih (fun x hx => ha x (List.mem_cons_of_mem c hx)) bt
        (fun x hx => hb x (List.mem_cons_of_mem c hx)) s t hs ht htail
      rw [this]

theorem clone_length (vendor : String) (id : Nat) :
    ∀ (g l : GroupDefinition), expandUncoreGroupClone vendor id g = .ok l →
      l.length = g.length := by
  intro g
  induction g with
  | nil =>
    intro l h
    simp only [expandUncoreGroupClone, Except.ok.injEq] at h
    subst h; rfl
  | cons e rest ih =>
    intro l h
    rw [expandUncoreGroupClone] at h
    cases hf : uncoreRegexFind e.Raw with
    | none => rw [hf] at h; simp at h
    | some m =>
      obtain ⟨m1, m2, m3, m4⟩ := m
      rw [hf] at h
      cases hr : expandUncoreGroupClone vendor id rest with
      | error e' => rw [hr] at h; simp at h
      | ok rest' =>
        rw [hr] at h
        simp only [Except.ok.injEq] at h
        subst h
        simp [ih rest' hr]

theorem clone_get (vendor : String) (id : Nat) :
    ∀ (g l : GroupDefinition), expandUncoreGroupClone vendor id g = .ok l →
      ∀ (p : Nat) (hp : p < g.length) (hp' : p < l.length),
        ∃ m1 m2 m3 m4,
          uncoreRegexFind (g.get ⟨p, hp⟩).Raw = some (m1, m2, m3, m4) ∧
          l.get ⟨p, hp'⟩ =
            expandUncoreGroupEvent vendor id (g.get ⟨p, hp⟩).Device m1 m2 m3 m4 := by
  intro g
  induction g with
  | nil =>
    intro l h p hp hp'
    exact absurd hp (by simp)
  | cons e rest ih =>
    intro l h p hp hp'
    rw [expandUncoreGroupClone] at h
    cases hf : uncoreRegexFind e.Raw with
    | none => rw [hf] at h; simp at h
    | some m =>
      obtain ⟨m1, m2, m3, m4⟩ := m
      rw [hf] at h
      cases hr : expandUncoreGroupClone vendor id rest with
      | error e' => rw [hr] at h; simp at h
      | ok rest' =>
        rw [hr] at h
        simp only [Except.ok.injEq] at h
        subst h
        cases p with
        | zero => exact ⟨m1, m2, m3, m4, hf, rfl⟩
        | succ q =>
          exact ih rest' hr q (Nat.lt_of_succ_lt_succ hp) (Nat.lt_of_succ_lt_succ hp')

theorem expand_length (g : GroupDefinition) (vendor : String) :
    ∀ (ids : List Nat) (out : List GroupDefinition),
      expandUncoreGroup g ids vendor = .ok out → out.length = ids.length := by
  intro ids
  induction ids with
  | nil =>
    intro out h
    simp only [expandUncoreGroup, Except.ok.injEq] at h
    subst h; rfl
  | cons id rest ih =>
    intro out h
    rw [expandUncoreGroup] at h
    cases hc : expandUncoreGroupClone vendor id g with
    | error e => rw [hc] at h; simp at h
    | ok g0 =>
      rw [hc] at h
      cases hr : expandUncoreGroup g rest vendor with
      | error e => rw [hr] at h; simp at h
      | ok r =>
        rw [hr] at h
        simp only [Except.ok.injEq] at h
        subst h
        simp [ih r hr]

theorem expand_mem (g : GroupDefinition) (vendor : String) :
    ∀ (ids : List Nat) (out : List GroupDefinition),
      expandUncoreGroup g ids vendor = .ok out →
      ∀ og ∈ out, ∃ id ∈ ids, expandUncoreGroupClone vendor id g = .ok og := by
  intro ids
  induction ids with
  | nil =>
    intro out h og hog
    simp only [expandUncoreGroup, Except.ok.injEq] at h
    subst h; simp at hog
  | cons id rest ih =>
    intro out h og hog
    rw [expandUncoreGroup] at h
    cases hc : expandUncoreGroupClone vendor id g with
    | error e => rw [hc] at h; simp at h
    | ok g0 =>
      rw [hc] at h
      cases hr : expandUncoreGroup g rest vendor with
      | error e => rw [hr] at h; simp at h
      | ok r =>
        rw [hr] at h
        simp only [Except.ok.injEq] at h
        subst h
        rcases List.mem_cons.mp hog with h0 | h0
        · subst h0; exact ⟨id, List.mem_cons_self id rest, hc⟩
        · obtain ⟨id', hid', hcl⟩ := ih r hr og h0
          exact ⟨id', List.mem_cons_of_mem id hid', hcl⟩

theorem expand_get (g : GroupDefinition) (vendor : String) :
    ∀ (ids : List Nat) (out : List GroupDefinition),
      expandUncoreGroup g ids vendor = .ok out →
      ∀ (i : Nat) (hi : i < ids.length) (hi' : i < out.length),
        expandUncoreGroupClone vendor (ids.get ⟨i, hi⟩) g = .ok (out.get ⟨i, hi'⟩) := by
  intro ids
  induction ids with
  | nil => intro out h i hi; exact absurd hi (by simp)
  | cons id rest ih =>
    intro out h i hi hi'
    rw [expandUncoreGroup] at h
    cases hc : expandUncoreGroupClone vendor id g with
    | error e => rw [hc] at h; simp at h
    | ok g0 =>
      rw [hc] at h
      cases hr : expandUncoreGroup g rest vendor with
      | error e => rw [hr] at h; simp at h
      | ok r =>
        rw [hr] at h
        simp only [Except.ok.injEq] at h
        subst h
        cases i with
        | zero => exact hc
        | succ q => exact ih r hr q (Nat.lt_of_succ_lt_succ hi) (Nat.lt_of_succ_lt_succ hi')

theorem natDecimal_digits (n : Nat) : ∀ c ∈ (natDecimal n).data, c.isDigit = true :=
  natDecimalAux_digits n n [] (by intro c hc; simp at hc)

theorem string_append_cancel_left {x y z : String} (h : x ++ y = x ++ z) : y = z := by
  have hd := congrArg String.data h
  simp only [String.data_append] at hd
  exact String.ext (List.append_cancel_left hd)

/-- For a non-AMD vendor, the rewrites of one event for two different device
ids have different names and different raw tokens (the decimal id is embedded
in both). -/
theorem event_rewrite_distinct (vendor : String) (hv : ¬ vendor = "AuthenticAMD")
    (id1 id2 : Nat) (hne : id1 ≠ id2) (d1 d2 m1 m2 m3 m4 : String) :
    (expandUncoreGroupEvent vendor id1 d1 m1 m2 m3 m4).Name ≠
      (expandUncoreGroupEvent vendor id2 d2 m1 m2 m3 m4).Name ∧
    (expandUncoreGroupEvent vendor id1 d1 m1 m2 m3 m4).Raw ≠
      (expandUncoreGroupEvent vendor id2 d2 m1 m2 m3 m4).Raw := by
  simp only [expandUncoreGroupEvent, if_neg hv]
  constructor
  · intro h
    apply hne
    apply natDecimal_inj
    exact string_append_cancel_left (x := m4 ++ ".") h
  · intro h
    apply hne
    apply natDecimal_inj
    have hd := congrArg String.data h
    simp only [String.data_append, List.append_assoc] at hd
    have h1 := List.append_cancel_left hd
    have h2 := List.append_cancel_left h1
    have h3 := List.append_cancel_left h2
    apply String.ext
    refine digit_run_cancel (natDecimal id1).data (natDecimal_digits id1)
      (natDecimal id2).data (natDecimal_digits id2) _ _ ?_ ?_ h3
    · intro x hx
      simp only [List.cons_append, List.head?_cons, Option.some.injEq] at hx
      subst hx; decide
    · intro x hx
      simp only [List.cons_append, List.head?_cons, Option.some.injEq] at hx
      subst hx; decide

/-- C5 amended: for a group whose raw tokens all match the uncore pattern
(the hypothesis that the expansion succeeded), expansion over k instance ids
yields exactly k groups, each with the input's event count; and for a non-AMD
vendor with distinct instance ids, any two clones differ slot-by-slot in both
the device-qualified event name and the raw token.  (For AMD the k clones are
identical — see the counterexample.) -/
theorem c5_expand_counts (g : GroupDefinition) (ids : List Nat) (vendor : String)
    (out : List GroupDefinition) (h : expandUncoreGroup g ids vendor = .ok out) :
    out.length = ids.length ∧
    (∀ og ∈ out, og.length = g.length) ∧
    (¬ vendor = "AuthenticAMD" → ids.Nodup →
      ∀ (i j : Nat) (hi : i < out.length) (hj : j < out.length), i ≠ j →
        ∀ (p : Nat) (hpi : p < (out.get ⟨i, hi⟩).length)
          (hpj : p < (out.get ⟨j, hj⟩).length),
          ((out.get ⟨i, hi⟩).get ⟨p, hpi⟩).Name ≠
            ((out.get ⟨j, hj⟩).get ⟨p, hpj⟩).Name ∧
          ((out.get ⟨i, hi⟩).get ⟨p, hpi⟩).Raw ≠
            ((out.get ⟨j, hj⟩).get ⟨p, hpj⟩).Raw) := by
  refine ⟨expand_length g vendor ids out h, ?_, ?_⟩
  · intro og hog
    obtain ⟨id, _, hcl⟩ := expand_mem g vendor ids out h og hog
    exact clone_length vendor id g og hcl
  · intro hv hnd i j hi hj hij p hpi hpj
    have hlen := expand_length g vendor ids out h
    have hi2 : i < ids.length := hlen ▸ hi
    have hj2 : j < ids.length := hlen ▸ hj
    have hci := expand_get g vendor ids out h i hi2 hi
    have hcj := expand_get g vendor ids out h j hj2 hj
    have hgl : (out.get ⟨i, hi⟩).length = g.length :=
      clone_length vendor _ g _ hci
    have hgp : p < g.length := hgl ▸ hpi
    obtain ⟨m1, m2, m3, m4, hf, hei⟩ :=
      clone_get vendor (ids.get ⟨i, hi2⟩) g _ hci p hgp hpi
    obtain ⟨n1, n2, n3, n4, hf', hej⟩ :=
      clone_get vendor (ids.get ⟨j, hj2⟩) g _ hcj p hgp hpj
    rw [hf] at hf'
    simp only [Option.some.injEq, Prod.mk.injEq] at hf'
    obtain ⟨he1, he2, he3, he4⟩ := hf'
    subst he1; subst he2; subst he3; subst he4
    have hidne : ids.get ⟨i, hi2⟩ ≠ ids.get ⟨j, hj2⟩ := by
      intro he
      apply hij
      have hinj := List.nodup_iff_injective_get.mp hnd he
      exact congrArg Fin.val hinj
    rw [hei, hej]
    exact event_rewrite_distinct vendor hv _ _ hidne _ _ _ _ _ _

/-- Witness for `c5_expand_counts`: the `cha` group expanded for a non-AMD
vendor over ids 0 and 1 — the two clones' event names and raw tokens differ. -/
theorem c5_expand_counts_witness :
    ({ Raw := "uncore_cha_0/event=0x3,umask=0x4,name='M.0'/", Name := "M.0",
       Device := "cha", Description := "" } : EventDefinition).Name ≠
      ({ Raw := "uncore_cha_1/event=0x3,umask=0x4,name='M.1'/", Name := "M.1",
         Device := "cha", Description := "" } : EventDefinition).Name ∧
    ({ Raw := "uncore_cha_0/event=0x3,umask=0x4,name='M.0'/", Name := "M.0",
       Device := "cha", Description := "" } : EventDefinition).Raw ≠
      ({ Raw := "uncore_cha_1/event=0x3,umask=0x4,name='M.1'/", Name := "M.1",
         Device := "cha", Description := "" } : EventDefinition).Raw :=
  (c5_expand_counts
      [{ Raw := "cha/event=0x3,umask=0x4,name='M'/", Name := "M", Device := "cha",
         Description := "" }] [0, 1] "GenuineIntel"
      [[{ Raw := "uncore_cha_0/event=0x3,umask=0x4,name='M.0'/", Name := "M.0",
          Device := "cha", Description := "" }],
       [{ Raw := "uncore_cha_1/event=0x3,umask=0x4,name='M.1'/", Name := "M.1",
          Device := "cha", Description := "" }]]
      (by rfl)).2.2 (by decide) (by decide) 0 1 (by decide) (by decide) (by decide)
    0 (by decide) (by decide)

theorem addUniqueName_mem (unc : List String) (nm n : String)
    (h : n ∈ addUniqueName unc nm) : n ∈ unc ∨ n = nm := by
  unfold addUniqueName at h
  split at h
  · exact Or.inl h
  · rcases List.mem_append.mp h with h' | h'
    · exact Or.inl h'
    · exact Or.inr (List.mem_singleton.mp h')

theorem scanLines_invariant (scope : Scope) (md : Metadata) :
    ∀ (lines : List String) (gacc : List GroupDefinition) (grp : GroupDefinition)
      (unc : List String) (gs : List GroupDefinition) (u : List String),
      (∀ g ∈ gacc, ∀ e ∈ g, isCollectableEvent scope e md = true) →
      (∀ e ∈ grp, isCollectableEvent scope e md = true) →
      (∀ n ∈ unc, ∃ e, isCollectableEvent scope e md = false ∧ e.Name = n) →
      scanLines scope md lines gacc grp unc = .ok (gs, u) →
      (∀ g ∈ gs, ∀ e ∈ g, isCollectableEvent scope e md = true) ∧
      (∀ n ∈ u, ∃ e, isCollectableEvent scope e md = false ∧ e.Name = n) := by
  intro lines
  induction lines with
  | nil =>
    intro gacc grp unc gs u hg _hgrp hu h
    rw [scanLines] at h
    simp only [Except.ok.injEq, Prod.mk.injEq] at h
    obtain ⟨h1, h2⟩ := h
    exact ⟨h1 ▸ hg, h2 ▸ hu⟩
  | cons a rest ih =>
    intro gacc grp unc gs u hg hgrp hu h
    by_cases ha1 : goTrim a.data = []
    · simp only [scanLines, ha1, List.isEmpty_nil, if_true] at h
      exact ih gacc grp unc gs u hg hgrp hu h
    · have ha1' : ¬ ((goTrim a.data).isEmpty = true) := by
        intro hx; exact ha1 (List.isEmpty_iff.mp hx)
      by_cases ha2 : (goTrim a.data).headD ' ' = '#'
      · rw [scanLines, if_neg ha1', if_pos ha2] at h
        exact ih gacc grp unc gs u hg hgrp hu h
      · rw [scanLines, if_neg ha1', if_neg ha2] at h
        cases hpe : parseEventDefinition ⟨(goTrim a.data).dropLast⟩ with
        | formatError m => rw [hpe] at h; simp at h
        | panicked => rw [hpe] at h; simp at h
        | ok ev =>
          rw [hpe] at h
          simp only at h
          set evA : EventDefinition :=
            { Raw := abbreviateEventName ev.Raw, Name := abbreviateEventName ev.Name,
              Device := ev.Device, Description := ev.Description } with hevA
          by_cases hcol : isCollectableEvent scope evA md = true
          · have hgrp' : ∀ e ∈ grp ++ [evA], isCollectableEvent scope e md = true := by
              intro e he
              rcases List.mem_append.mp he with h' | h'
              · exact hgrp e h'
              · rw [List.mem_singleton.mp h']; exact hcol
            rw [if_pos hcol, if_pos hcol] at h
            by_cases ha3 : (goTrim a.data).getLastD ' ' = ';'
            · rw [if_pos ha3] at h
              refine ih _ _ _ gs u ?_ (by intro e he; simp at he) hu h
              split
              · intro g hgm
                rcases List.mem_append.mp hgm with h' | h'
                · exact hg g h'
                · rw [List.mem_singleton.mp h']; exact hgrp'
              · exact hg
            · rw [if_neg ha3] at h
              exact ih _ _ _ gs u hg hgrp' hu h
          · have hcol' : isCollectableEvent scope evA md = false :=
              Bool.eq_false_iff.mpr hcol
            have hu' : ∀ n ∈ addUniqueName unc evA.Name,
                ∃ e, isCollectableEvent scope e md = false ∧ e.Name = n := by
              intro n hn
              rcases addUniqueName_mem unc evA.Name n hn with h' | h'
              · exact hu n h'
              · exact ⟨evA, hcol', h'.symm⟩
            rw [if_neg hcol, if_neg hcol] at h
            by_cases ha3 : (goTrim a.data).getLastD ' ' = ';'
            · rw [if_pos ha3] at h
              refine ih _ _ _ gs u ?_ (by intro e he; simp at he) hu' h
              split
              · intro g hgm
                rcases List.mem_append.mp hgm with h' | h'
                · exact hg g h'
                · rw [List.mem_singleton.mp h']; exact hgrp
              · exact hg
            · rw [if_neg ha3] at h
              exact ih _ _ _ gs u hg hgrp hu' h

theorem clone_mem_origin (vendor : String) (id : Nat) :
    ∀ (g l : GroupDefinition), expandUncoreGroupClone vendor id g = .ok l →
      ∀ e' ∈ l, ∃ e₀ ∈ g, ∃ m1 m2 m3 m4,
        uncoreRegexFind e₀.Raw = some (m1, m2, m3, m4) ∧
        e' = expandUncoreGroupEvent vendor id e₀.Device m1 m2 m3 m4 := by
  intro g
  induction g with
  | nil =>
    intro l h e' he'
    simp only [expandUncoreGroupClone, Except.ok.injEq] at h
    subst h; simp at he'
  | cons e rest ih =>
    intro l h e' he'
    rw [expandUncoreGroupClone] at h
    cases hf : uncoreRegexFind e.Raw with
    | none => rw [hf] at h; simp at h
    | some m =>
      obtain ⟨m1, m2, m3, m4⟩ := m
      rw [hf] at h
      cases hr : expandUncoreGroupClone vendor id rest with
      | error err => rw [hr] at h; simp at h
      | ok rest' =>
        rw [hr] at h
        simp only [Except.ok.injEq] at h
        subst h
        rcases List.mem_cons.mp he' with h0 | h0
        · exact ⟨e, List.mem_cons_self e rest, m1, m2, m3, m4, hf, h0⟩
        · obtain ⟨e₀, he₀, n1, n2, n3, n4, hf', heq⟩ := ih rest' hr e' h0
          exact ⟨e₀, List.mem_cons_of_mem e he₀, n1, n2, n3, n4, hf', heq⟩

theorem expandUncoreGroups_origin (md : Metadata) :
    ∀ (gs out : List GroupDefinition), expandUncoreGroups gs md = .ok out →
      ∀ g' ∈ out, ∀ e' ∈ g',
        (∃ g ∈ gs, g' = g) ∨
        (∃ g ∈ gs, ∃ e₀ ∈ g, ∃ id m1 m2 m3 m4,
          uncoreRegexFind e₀.Raw = some (m1, m2, m3, m4) ∧
          e' = expandUncoreGroupEvent md.Vendor id e₀.Device m1 m2 m3 m4) := by
  intro gs
  induction gs with
  | nil =>
    intro out h g' hg'
    simp only [expandUncoreGroups, Except.ok.injEq] at h
    subst h; simp at hg'
  | cons g rest ih =>
    intro out h g' hg' e' he'
    cases g with
    | nil => simp [expandUncoreGroups] at h
    | cons e0 t =>
      rw [expandUncoreGroups] at h
      by_cases hex : uncoreDeviceExists md e0.Device = true
      · rw [if_pos hex] at h
        by_cases hz : (uncoreDeviceIds md e0.Device).length = 0
        · rw [if_pos hz] at h
          rcases ih out h g' hg' e' he' with ⟨g₁, hm, heq⟩ | ⟨g₁, hm, rest'⟩
          · exact Or.inl ⟨g₁, List.mem_cons_of_mem _ hm, heq⟩
          · exact Or.inr ⟨g₁, List.mem_cons_of_mem _ hm, rest'⟩
        · rw [if_neg hz] at h
          cases hx : expandUncoreGroup (e0 :: t) (uncoreDeviceIds md e0.Device) md.Vendor with
          | error e => rw [hx] at h; simp at h
          | ok ngs =>
            rw [hx] at h
            cases hr : expandUncoreGroups rest md with
            | error e => rw [hr] at h; simp at h
            | ok r =>
              rw [hr] at h
              simp only [Except.ok.injEq] at h
              subst h
              rcases List.mem_append.mp hg' with hin | hin
              · obtain ⟨id, _hid, hcl⟩ := expand_mem _ _ _ _ hx g' hin
                obtain ⟨e₀, he₀, m1, m2, m3, m4, hf, heq⟩ :=
                  clone_mem_origin md.Vendor id _ _ hcl e' he'
                exact Or.inr ⟨e0 :: t, List.mem_cons_self _ _, e₀, he₀,
                  id, m1, m2, m3, m4, hf, heq⟩
              · rcases ih r hr g' hin e' he' with ⟨g₁, hm, heq⟩ | ⟨g₁, hm, rest'⟩
                · exact Or.inl ⟨g₁, List.mem_cons_of_mem _ hm, heq⟩
                · exact Or.inr ⟨g₁, List.mem_cons_of_mem _ hm, rest'⟩
      · rw [if_neg hex] at h
        cases hr : expandUncoreGroups rest md with
        | error e => rw [hr] at h; simp at h
        | ok r =>
          rw [hr] at h
          simp only [Except.ok.injEq] at h
          subst h
          rcases List.mem_cons.mp hg' with hin | hin
          · exact Or.inl ⟨e0 :: t, List.mem_cons_self _ _, hin⟩
          · rcases ih r hr g' hin e' he' with ⟨g₁, hm, heq⟩ | ⟨g₁, hm, rest'⟩
            · exact Or.inl ⟨g₁, List.mem_cons_of_mem _ hm, heq⟩
            · exact Or.inr ⟨g₁, List.mem_cons_of_mem _ hm, rest'⟩

theorem armCollectGroup_mem (scope : Scope) (md : Metadata) (evs : List ARM64Event)
    (e : EventDefinition) (h : e ∈ armCollectGroup scope md evs) :
    isCollectableEvent scope e md = true := by
  obtain ⟨a, _ha, hsome⟩ := List.mem_filterMap.mp h
  by_cases hc : isCollectableEvent scope (armEventFromJson a) md = true
  · simp only [armCollectGroup, hc, if_pos] at hsome
    rw [← Option.some.inj hsome]
    exact hc
  · simp [hc] at hsome

theorem armLoop_invariant (scope : Scope) (md : Metadata) :
    ∀ (entries : List ArmDirEntry) (gacc : List GroupDefinition) (err : Option String)
      (gsA : List GroupDefinition) (uA : List String) (errA : Option String),
      (∀ g ∈ gacc, ∀ e ∈ g, isCollectableEvent scope e md = true) →
      armLoop scope md entries gacc err = (gsA, uA, errA) →
      (∀ g ∈ gsA, ∀ e ∈ g, isCollectableEvent scope e md = true) ∧ uA = [] := by
  intro entries
  induction entries with
  | nil =>
    intro gacc err gsA uA errA hg h
    rw [armLoop] at h
    simp only [Prod.mk.injEq] at h
    obtain ⟨h1, h2, _h3⟩ := h
    exact ⟨h1 ▸ hg, h2.symm⟩
  | cons e rest ih =>
    intro gacc err gsA uA errA hg h
    rw [armLoop] at h
    by_cases hjson : ¬ e.isDir = true ∧ goHasSuffix (goToLower e.name) ".json" = true
    · rw [if_pos hjson] at h
      cases hd : e.data with
      | readError m => rw [hd] at h; exact ih _ _ _ _ _ hg h
      | parseError m => rw [hd] at h; exact ih _ _ _ _ _ hg h
      | events evs =>
        rw [hd] at h
        simp only at h
        by_cases hlen : (armCollectGroup scope md evs).length > 0
        · rw [if_pos hlen] at h
          refine ih _ _ _ _ _ ?_ h
          intro g hgm
          rcases List.mem_append.mp hgm with h' | h'
          · exact hg g h'
          · rw [List.mem_singleton.mp h']
            intro ev hev
            exact armCollectGroup_mem scope md evs ev hev
        · rw [if_neg hlen] at h
          exact ih _ _ _ _ _ hg h
    · rw [if_neg hjson] at h
      exact ih _ _ _ _ _ hg h

/-- C3 amended: for every successful load (x86 path and ARM path, same
metadata and scope), every event contained in every returned group either
satisfies the collectability predicate or is the uncore rewrite of an event
that satisfied it (the counterexample shows a rewritten event can fail the
predicate); and every name in the returned uncollectable lists came from a
parsed event on which the predicate evaluated false. -/
theorem c3_amended (scope : Scope) (md : Metadata)
    (lines : List String) (gs : List GroupDefinition) (unc : List String)
    (entries : List ArmDirEntry) (gsA : List GroupDefinition) (uncA : List String)
    (errA : Option String)
    (hx : LoadEventGroups scope lines md = .ok (gs, unc))
    (ha : LoadArmEventGroups scope entries md = (gsA, uncA, errA)) :
    (∀ g ∈ gs, ∀ e ∈ g,
      isCollectableEvent scope e md = true ∨
      ∃ e₀ id m1 m2 m3 m4, isCollectableEvent scope e₀ md = true ∧
        uncoreRegexFind e₀.Raw = some (m1, m2, m3, m4) ∧
        e = expandUncoreGroupEvent md.Vendor id e₀.Device m1 m2 m3 m4) ∧
    (∀ n ∈ unc, ∃ e, isCollectableEvent scope e md = false ∧ e.Name = n) ∧
    (∀ g ∈ gsA, ∀ e ∈ g, isCollectableEvent scope e md = true) ∧
    (∀ n ∈ uncA, ∃ e, isCollectableEvent scope e md = false ∧ e.Name = n) := by
  unfold LoadEventGroups at hx
  cases hscan : scanLines scope md lines [] [] [] with
  | error e => rw [hscan] at hx; simp at hx
  | ok pr =>
    obtain ⟨gs0, unc0⟩ := pr
    rw [hscan] at hx
    dsimp only at hx
    cases hexp : expandUncoreGroups gs0 md with
    | error e => rw [hexp] at hx; simp at hx
    | ok gs1 =>
      rw [hexp] at hx
      simp only [Except.ok.injEq, Prod.mk.injEq] at hx
      obtain ⟨hgs, hunc⟩ := hx
      subst hgs; subst hunc
      obtain ⟨hinv1, hinv2⟩ := scanLines_invariant scope md lines [] [] [] gs0 unc0
        (by simp) (by simp) (by simp) hscan
      have ha' : armLoop scope md entries [] none = (gsA, uncA, errA) := ha
      obtain ⟨harm1, harm2⟩ :=
        armLoop_invariant scope md entries [] none gsA uncA errA (by simp) ha'
      refine ⟨?_, hinv2, harm1, ?_⟩
      · intro g hg e he
        rcases expandUncoreGroups_origin md gs0 _ hexp g hg e he with
          ⟨g₁, hm, heq⟩ | ⟨g₁, hm, e₀, he₀, id, m1, m2, m3, m4, hf, heq⟩
        · exact Or.inl (hinv1 g₁ hm e (heq ▸ he))
        · exact Or.inr ⟨e₀, id, m1, m2, m3, m4, hinv1 g₁ hm e₀ he₀, hf, heq⟩
      · rw [harm2]; intro n hn; simp at hn

/-- Witness for `c3_amended` at a one-line x86 catalog and a one-file ARM
directory: the concrete loaded event satisfies the predicate. -/
theorem c3_amended_witness :
    isCollectableEvent .system
      { Raw := "cpu-cycles", Name := "cpu-cycles", Device := "", Description := "" }
      { Architecture := "x86_64", Vendor := "GenuineIntel", Microarchitecture := "spr",
        PerfSupportedEvents := "cpu-cycles", UncoreDeviceIDs := [],
        SupportsFixedTMA := true, SupportsPEBS := true, SupportsOCR := true,
        SupportsUncore := true, SupportsRefCycles := true } = true ∨
    ∃ e₀ id m1 m2 m3 m4,
      isCollectableEvent Scope.system e₀
        { Architecture := "x86_64", Vendor := "GenuineIntel", Microarchitecture := "spr",
          PerfSupportedEvents := "cpu-cycles", UncoreDeviceIDs := [],
          SupportsFixedTMA := true, SupportsPEBS := true, SupportsOCR := true,
          SupportsUncore := true, SupportsRefCycles := true } = true ∧
      uncoreRegexFind e₀.Raw = some (m1, m2, m3, m4) ∧
      ({ Raw := "cpu-cycles", Name := "cpu-cycles", Device := "", Description := "" }
        : EventDefinition) =
        expandUncoreGroupEvent "GenuineIntel" id e₀.Device m1 m2 m3 m4 :=
  (c3_amended .system
      { Architecture := "x86_64", Vendor := "GenuineIntel", Microarchitecture := "spr",
        PerfSupportedEvents := "cpu-cycles", UncoreDeviceIDs := [],
        SupportsFixedTMA := true, SupportsPEBS := true, SupportsOCR := true,
        SupportsUncore := true, SupportsRefCycles := true }
      ["cpu-cycles;"]
      [[{ Raw := "cpu-cycles", Name := "cpu-cycles", Device := "", Description := "" }]]
      []
      [{ name := "general.json", isDir := false,
         data := .events [{ ArchStdEvent := "CPU_CYCLES", PublicDescription := "d" }] }]
      [[{ Raw := "CPU_CYCLES", Name := "CPU_CYCLES", Device := "cpu", Description := "d" }]]
      [] none (by rfl) (by rfl)).1
    [{ Raw := "cpu-cycles", Name := "cpu-cycles", Device := "", Description := "" }]
    (by simp)
    { Raw := "cpu-cycles", Name := "cpu-cycles", Device := "", Description := "" }
    (by simp)
